import Mathlib

/-!
# Verification of `scripts/build_cfm_weekly.py`

A shallow embedding, in Lean 4, of the weekly-manual scraper
`scripts/build_cfm_weekly.py` (week computation, responsive-image `srcset`
parsing, the image-selection heuristic `pick_top_image`, heading extraction,
and the fetch-then-write driver), together with theorems settling the spec
claims about it.

Conventions used throughout the embedding:

* Python `str` values are Lean `String`s; all character-level processing is
  done structurally on `String.data : List Char` so that every definition
  reduces inside the kernel.
* Python string methods are modelled character-for-character for the ASCII
  inputs the program manipulates (`str.strip`, `str.lower`, `str.split`,
  `in`, `startswith`, `endswith`).
* Python integers are `Int`; Python `//` and `%` (floor division and floor
  modulus) coincide with Lean's `Int` `/` (`Int.ediv`) and `%` (`Int.emod`)
  at every call site in this program because every divisor is positive.
* The HTML tree produced by `BeautifulSoup(..., "html.parser")` is modelled
  by the inductive `Node`; CSS selection (`select`, `select_one`,
  `find_all`, `find`) is modelled as pre-order traversal, which is the
  document order soupsieve yields.
-/

/-! ## Python string primitives -/

/-- The characters Python `str.strip()` (and the regex class `\s`, for the
ASCII range relevant here) treats as whitespace. -/
def pyIsSpace (c : Char) : Bool :=
  c == ' ' || c == '\t' || c == '\n' || c == '\x0d' || c == '\x0b' || c == '\x0c'

/-- Python `str.strip()` on the underlying character list. -/
def stripL (l : List Char) : List Char :=
  ((l.dropWhile pyIsSpace).reverse.dropWhile pyIsSpace).reverse

/-- Python `str.strip()`. -/
def pyStrip (s : String) : String := ⟨stripL s.data⟩

/-- Python `str.lower()` (ASCII case folding, which is all the program's
URLs require). -/
def pyLower (s : String) : String := ⟨s.data.map Char.toLower⟩

/-- Python `str.split(sep)` for a one-character separator: splits at every
occurrence, keeping empty pieces, and yields `[whole]` when the separator
does not occur. -/
def splitOnCharL (c : Char) : List Char → List (List Char)
  | [] => [[]]
  | a :: rest =>
    match splitOnCharL c rest with
    | [] => [[]]
    | r :: rs => if a == c then [] :: r :: rs else (a :: r) :: rs

/-- Python `str.split(sep)` for a one-character separator. -/
def pySplit (c : Char) (s : String) : List String :=
  (splitOnCharL c s.data).map (fun l => ⟨l⟩)

/-- `needle` is a prefix of `hay` (Python `str.startswith`). -/
def isPrefixL : List Char → List Char → Bool
  | [], _ => true
  | _ :: _, [] => false
  | a :: as, b :: bs => a == b && isPrefixL as bs

/-- Python `hay.startswith(needle)`. -/
def pyStartsWith (hay needle : String) : Bool := isPrefixL needle.data hay.data

/-- Python `hay.endswith(needle)`. -/
def pyEndsWith (hay needle : String) : Bool :=
  isPrefixL needle.data.reverse hay.data.reverse

/-- Python `needle in hay` on character lists: some suffix of `hay` starts
with `needle`. -/
def hasSubL (hay needle : List Char) : Bool :=
  if isPrefixL needle hay then true
  else
    match hay with
    | [] => false
    | _ :: t => hasSubL t needle

/-- Python `needle in hay` (substring containment). -/
def pyContains (hay needle : String) : Bool := hasSubL hay.data needle.data

/-- Numeric value of a list of decimal digits (Python `int(...)` applied to
the digit group a regex captured). -/
def digitsToNat : List Char → Nat
  | [] => 0
  | d :: ds => digitsToNat ds + d.toNat.sub 48 * (10 ^ ds.length)

/-! ## Constants from the script -/

/-- `BASE` (line 12 of the script). -/
def BASE : String := "https://www.churchofjesuschrist.org"

/-- Model of `urllib.parse.urljoin(BASE, u)` for the URL shapes this program
produces: an empty reference yields the base; a `data:` URL (a scheme that
does not use relative resolution) and an already-absolute `http(s)` URL are
returned unchanged; a protocol-relative reference gains the base's scheme; a
root-relative reference is attached to the base origin; anything else is a
relative path resolved against the base's empty path. -/
def urljoin (base u : String) : String :=
  if u = "" then base
  else if pyStartsWith u "data:" then u
  else if pyStartsWith u "http://" || pyStartsWith u "https://" then u
  else if pyStartsWith u "//" then "https:" ++ u
  else if pyStartsWith u "/" then base ++ u
  else base ++ "/" ++ u

/-- `absolute_url` (lines 26–29). -/
def absolute_url (u : String) : String :=
  if u = "" then "" else urljoin BASE u

/-! ## `_largest_from_srcset` (lines 36–52) -/

/-- Model of `re.match(r"(\S+)\s+(\d+)w", part)`: a maximal nonempty run of
non-whitespace characters, at least one whitespace character, then a maximal
nonempty run of digits that must be followed by a literal `w`.  (The greedy
groups cannot backtrack across the whitespace boundary, and a shorter digit
run would be followed by a digit rather than `w`, so the regex succeeds
exactly in this deterministic form.)  Returns `(width, url)` as the code
stores it in `candidates`. -/
def parseSrcsetEntry (part : String) : Option (Nat × String) :=
  let cs := part.data
  let url := cs.takeWhile (fun c => !pyIsSpace c)
  if url.isEmpty then none
  else
    let rest := cs.drop url.length
    let ws := rest.takeWhile pyIsSpace
    if ws.isEmpty then none
    else
      let rest2 := rest.drop ws.length
      let ds := rest2.takeWhile Char.isDigit
      if ds.isEmpty then none
      else
        match rest2.drop ds.length with
        | 'w' :: _ => some (digitsToNat ds, ⟨url⟩)
        | _ => none

/-- The `candidates` list built by the loop in `_largest_from_srcset`
(lines 43–48): split on commas, strip each part, keep the parts the regex
accepts.  A part whose width descriptor fails to parse is dropped
individually. -/
def srcsetCandidates (srcset : String) : List (Nat × String) :=
  (pySplit ',' srcset).filterMap (fun part => parseSrcsetEntry (pyStrip part))

/-- One step of a stable insertion sort, ascending by declared width:
an element is placed before the first existing element of strictly larger
or equal width that it was compared with, hence after nothing smaller and
before later-inserted equals.  Used to model Python's stable
`candidates.sort(key=lambda x: x[0])`. -/
def insertAsc (p : Nat × String) : List (Nat × String) → List (Nat × String)
  | [] => [p]
  | q :: qs => if p.1 ≤ q.1 then p :: q :: qs else q :: insertAsc p qs

/-- Model of the stable ascending `candidates.sort(key=lambda x: x[0])`
(line 51): insertion sort, inserting earlier list elements in front of
elements of equal width that occur later. -/
def sortByWidth : List (Nat × String) → List (Nat × String)
  | [] => []
  | p :: ps => insertAsc p (sortByWidth ps)

/-- `_largest_from_srcset` (lines 36–52): empty input and an empty candidate
list yield `""`; otherwise the URL of the last element of the stably sorted
candidate list (`candidates[-1][1]`). -/
def largest_from_srcset (srcset : String) : String :=
  if srcset = "" then ""
  else
    match (sortByWidth (srcsetCandidates srcset)).getLast? with
    | none => ""
    | some c => c.2

example : largest_from_srcset "a.jpg 100w, b.jpg 640w, c.jpg 300w" = "b.jpg" := by decide
example : largest_from_srcset "a.jpg 640w, b.jpg 640w" = "b.jpg" := by decide
example : largest_from_srcset "a.jpg 100w, b.jpg xw, c.jpg 50w" = "a.jpg" := by decide
example : largest_from_srcset "a.jpg, b.jpg" = "" := by decide
example : digitsToNat "640".data = 640 := by decide

/-! ## `_looks_like_bad_image` (lines 77–99) -/

/-- `bad_substrings` (lines 92–95). -/
def badSubstrings : List String :=
  ["sprite", "icon", "icons", "logo", "favicon", "spinner", "loading",
   "placeholder", "transparent", "blank", "1x1", "pixel"]

/-- `_looks_like_bad_image` (lines 77–99): lowercase and strip the URL, then
reject the empty string, inline `data:image` URLs, `.svg` URLs, and URLs
containing any denylisted substring. -/
def looks_like_bad_image (url : String) : Bool :=
  let u := pyLower (pyStrip url)
  if u = "" then true
  else if pyStartsWith u "data:image" then true
  else if pyEndsWith u ".svg" || pyContains u ".svg?" then true
  else badSubstrings.any (fun s => pyContains u s)

example : looks_like_bad_image "" = true := by decide
example : looks_like_bad_image "https://x.org/a.jpg" = false := by decide
example : looks_like_bad_image "https://x.org/Logoerase.jpg" = true := by decide
example : looks_like_bad_image "data:image/png;base64,AAAA" = true := by decide
example : looks_like_bad_image "https://x.org/a.svg" = true := by decide

/-! ## The HTML document model -/

/-- A node of the tree `BeautifulSoup(r.text, "html.parser")` produces: an
element with a tag name, attributes (each attribute value kept as its raw
string), and children in document order, or a text node.  The whole parsed
document is itself represented as an element (BeautifulSoup's `[document]`
object) whose children are the top-level nodes. -/
inductive Node where
  | elem (name : String) (attrs : List (String × String)) (children : List Node)
  | text (s : String)

/-- The tag name of a node (`el.name`; text nodes have none). -/
def Node.tagName : Node → String
  | .elem n _ _ => n
  | .text _ => ""

/-- `el.get(key, "")`: the attribute's value, or `""` when absent. -/
def Node.attr : Node → String → String
  | .elem _ attrs _, key =>
    match attrs.find? (fun kv => kv.1 == key) with
    | some kv => kv.2
    | none => ""
  | .text _, _ => ""

/-- Python `a or b` for strings: `a` unless it is empty (falsy), else `b`.
Models the chains `el.get("srcset", "") or el.get("data-srcset", "") or ""`. -/
def pyOrS (a b : String) : String := if a = "" then b else a

mutual

/-- All elements with tag name `t` in the tree rooted at `n`, `n` itself
included, in document (pre-order) order. -/
def matchTagN (t : String) : Node → List Node
  | .text _ => []
  | .elem nm a ks => (if nm == t then [Node.elem nm a ks] else []) ++ matchTagL t ks

/-- `matchTagN` over a forest, left to right. -/
def matchTagL (t : String) : List Node → List Node
  | [] => []
  | c :: cs => matchTagN t c ++ matchTagL t cs

end

/-- `n.select(t)` / `n.find_all(t)` for a plain tag-name selector: all
element descendants of `n` with tag name `t`, in document order, `n`
itself excluded (CSS selection applies to descendants only). -/
def selectTag (n : Node) (t : String) : List Node :=
  match n with
  | .text _ => []
  | .elem _ _ ks => matchTagL t ks

/-- `n.find(t)`: the first element descendant with tag name `t`, or `None`. -/
def findTag (n : Node) (t : String) : Option Node :=
  (selectTag n t).head?

example :
    (selectTag (.elem "div" [] [.elem "img" [("src", "/a.jpg")] [],
                                .elem "p" [] [.elem "img" [("src", "/b.jpg")] []]]) "img").map
        (fun el => el.attr "src")
      = ["/a.jpg", "/b.jpg"] := by decide

mutual

/-- The `img` elements in the tree rooted at `n` (itself included, if an
`img`) that have a `figure` ancestor, in document order.  `inFig` records
whether some ancestor of `n` is a `figure`; the selector `figure img`
matches an `img` whose ancestor chain — including ancestors above the
queried scope — contains a `figure`. -/
def figImgsN (inFig : Bool) : Node → List Node
  | .text _ => []
  | .elem nm a ks =>
    (if nm == "img" && inFig then [Node.elem nm a ks] else [])
      ++ figImgsL (inFig || nm == "figure") ks

/-- `figImgsN` over a forest of siblings sharing the ancestor flag. -/
def figImgsL (inFig : Bool) : List Node → List Node
  | [] => []
  | c :: cs => figImgsN inFig c ++ figImgsL inFig cs

end

/-- `root.select("figure img")`: descendant `img` elements of `root` whose
ancestor chain contains a `figure`, given that `inFig` says whether `root`
already has a `figure` ancestor. -/
def selectFigureImg (root : Node) (inFig : Bool) : List Node :=
  match root with
  | .text _ => []
  | .elem nm _ ks => figImgsL (inFig || nm == "figure") ks

mutual

/-- The `main` and `article` elements in the tree rooted at `n` (itself
included), in document order, each paired with the flag "has a `figure`
ancestor" needed to evaluate `figure img` inside it later. -/
def mainArticleN (inFig : Bool) : Node → List (Node × Bool)
  | .text _ => []
  | .elem nm a ks =>
    (if nm == "main" || nm == "article" then [(Node.elem nm a ks, inFig)] else [])
      ++ mainArticleL (inFig || nm == "figure") ks

/-- `mainArticleN` over a forest of siblings. -/
def mainArticleL (inFig : Bool) : List Node → List (Node × Bool)
  | [] => []
  | c :: cs => mainArticleN inFig c ++ mainArticleL inFig cs

end

/-- `soup.select("main, article")` (line 137): the `main`/`article`
elements of the document in document order (the soup object itself is not
eligible), each with its `figure`-ancestor context. -/
def soupContainers (soup : Node) : List (Node × Bool) :=
  match soup with
  | .text _ => []
  | .elem _ _ ks => mainArticleL false ks

/-! ## `pick_best_image_from_tag` (lines 55–74) -/

/-- The fallback loop of `pick_best_image_from_tag` (lines 69–72): walk the
attribute names in their fixed priority order and return the absolute URL of
the first present, non-empty value, else `""`. -/
def srcAttrFallback (img : Node) : List String → String
  | [] => ""
  | a :: rest =>
    let src := img.attr a
    if src ≠ "" then absolute_url src else srcAttrFallback img rest

/-- The four alternate URL attribute names tried in order (line 69). -/
def srcAttrNames : List String := ["src", "data-src", "data-lazy-src", "data-original"]

/-- `pick_best_image_from_tag` (lines 55–74): `""` for `None`; otherwise
prefer the largest candidate of `srcset` (or, when that attribute is falsy,
`data-srcset`), and fall back to the first non-empty of the four `src`-like
attributes. -/
def pick_best_image_from_tag : Option Node → String
  | none => ""
  | some img =>
    let srcset := pyOrS (img.attr "srcset") (pyOrS (img.attr "data-srcset") "")
    let best := largest_from_srcset srcset
    if best ≠ "" then absolute_url best
    else srcAttrFallback img srcAttrNames

/-! ## `_pick_from_picture_tag` (lines 102–125) -/

/-- The first URL of a candidate list without width descriptors, as the
code extracts it (line 119): first comma-separated chunk, stripped, first
space-separated token of it, stripped. -/
def firstSrcsetUrl (ss : String) : String :=
  pyStrip ⟨(splitOnCharL ' ' (pyStrip ((pySplit ',' ss).headD "")).data).headD []⟩

/-- The `for src in picture_tag.find_all("source")` loop of
`_pick_from_picture_tag` (lines 111–121): `some url` when some iteration
returns, `none` when the loop falls through to the `<img>` fallback.  A
source with a falsy (empty) stripped `srcset` is skipped; a non-empty list
yields its largest-width candidate, else its first URL — and when even that
is empty the loop continues with the next source. -/
def pickFromSources : List Node → Option String
  | [] => none
  | src :: rest =>
    let ss := pyStrip (pyOrS (src.attr "srcset") "")
    if ss ≠ "" then
      let best := largest_from_srcset ss
      if best ≠ "" then some (absolute_url best)
      else
        let first := firstSrcsetUrl ss
        if first ≠ "" then some (absolute_url first)
        else pickFromSources rest
    else pickFromSources rest

/-- `_pick_from_picture_tag` (lines 102–125): `""` for `None`; otherwise try
the `<source>` loop, falling back to `pick_best_image_from_tag` on the first
nested `<img>`. -/
def pick_from_picture_tag : Option Node → String
  | none => ""
  | some pic =>
    match pickFromSources (selectTag pic "source") with
    | some url => url
    | none => pick_best_image_from_tag (findTag pic "img")

/-! ## `pick_top_image` (lines 128–194) -/

/-- The per-element dispatch in the scan loops (lines 148–154 and 173–178). -/
def elementUrl (el : Node) : String :=
  if el.tagName = "picture" then pick_from_picture_tag (some el)
  else if el.tagName = "img" then pick_best_image_from_tag (some el)
  else ""

/-- The body of the scan loops of `pick_top_image` (lines 147–168 and
172–192) over a list of already-selected elements: extract each element's
URL, skip empties, resolve to absolute, skip URLs already seen, record the
URL as seen, skip junk, and return the first survivor.  Returns the result
(if any) together with the final `seen` set — modelled as the list of URLs
in reverse insertion order. -/
def scanElems (seen : List String) : List Node → Option String × List String
  | [] => (none, seen)
  | el :: rest =>
    let url := pyStrip (pyOrS (elementUrl el) "")
    if url = "" then scanElems seen rest
    else
      let url := absolute_url url
      if url = "" || seen.contains url then scanElems seen rest
      else
        let seen := url :: seen
        if looks_like_bad_image url then scanElems seen rest
        else (some url, seen)

/-- The element sequence one search root contributes: the selector list
`["picture", "figure img", "img"]` (line 143) evaluated against the root,
each selector's matches in document order. -/
def rootElems (root : Node) (inFig : Bool) : List Node :=
  selectTag root "picture" ++ selectFigureImg root inFig ++ selectTag root "img"

/-- The outer `for root in search_roots` loop (lines 145–168): scan each
root's element sequence in turn, threading the `seen` set, stopping at the
first acceptable URL. -/
def scanRoots (seen : List String) : List (Node × Bool) → Option String × List String
  | [] => (none, seen)
  | (r, f) :: rest =>
    match scanElems seen (rootElems r f) with
    | (some u, s) => (some u, s)
    | (none, s) => scanRoots s rest

/-- `search_roots` (lines 137–138): the `main`/`article` containers when
any exist, else the whole document. -/
def searchRootsOf (soup : Node) : List (Node × Bool) :=
  let containers := soupContainers soup
  if containers.isEmpty then [(soup, false)] else containers

/-- `pick_top_image` (lines 128–194): scan inside the `main`/`article`
containers when any exist (else the whole document); when that yields
nothing, repeat the identical traversal over the entire document — with the
`seen` set carried over — and finally give up with `""`. -/
def pick_top_image (soup : Node) : String :=
  match scanRoots [] (searchRootsOf soup) with
  | (some url, _) => url
  | (none, seen) =>
    match scanElems seen (rootElems soup false) with
    | (some url, _) => url
    | (none, _) => ""

/-! ## Heading extraction (lines 32–33 and 213–220) -/

mutual

/-- The text-node contents of the tree rooted at `n`, in document order
(BeautifulSoup's `strings` of an element). -/
def textsN : Node → List String
  | .text s => [s]
  | .elem _ _ ks => textsL ks

/-- `textsN` over a forest of siblings. -/
def textsL : List Node → List String
  | [] => []
  | c :: cs => textsN c ++ textsL cs

end

/-- Python `sep.join(pieces)`. -/
def joinSep (sep : String) : List String → String
  | [] => ""
  | [s] => s
  | s :: rest => s ++ sep ++ joinSep sep rest

/-- `el.get_text(" ", strip=True)`: each descendant string stripped, empty
results dropped, the rest joined with a single space. -/
def getText (el : Node) : String :=
  joinSep " " ((textsN el).map pyStrip |>.filter (fun s => s ≠ ""))

/-- `get_text_or_empty` (lines 32–33). -/
def get_text_or_empty : Option Node → String
  | some el => getText el
  | none => ""

/-- Python `str.split()` with no separator: split on whitespace runs,
dropping empty pieces.  Used for the multi-valued `class` attribute. -/
def pySplitWS (s : String) : List String :=
  (splitOnCharL ' ' (s.data.map (fun c => if pyIsSpace c then ' ' else c))).filterMap
    (fun t => if t.isEmpty then none else some (⟨t⟩ : String))

/-- Does the element match the CSS selector `p.title-number`? (tag `p`
whose whitespace-separated `class` attribute contains the token
`title-number`). -/
def matchesPTitleNumber (n : Node) : Bool :=
  n.tagName == "p" && (pySplitWS (n.attr "class")).contains "title-number"

mutual

/-- The elements of the tree rooted at `n` (itself included) matching
`p.title-number`, in document order. -/
def pTitleNumberN : Node → List Node
  | .text _ => []
  | .elem nm a ks =>
    (if matchesPTitleNumber (.elem nm a ks) then [Node.elem nm a ks] else [])
      ++ pTitleNumberL ks

/-- `pTitleNumberN` over a forest of siblings. -/
def pTitleNumberL : List Node → List Node
  | [] => []
  | c :: cs => pTitleNumberN c ++ pTitleNumberL cs

end

/-- `soup.select_one("p.title-number")` (line 215). -/
def selectPTitleNumber (soup : Node) : Option Node :=
  (match soup with
   | .text _ => []
   | .elem _ _ ks => pTitleNumberL ks).head?

/-- `soup.select_one("h1")` (line 217). -/
def selectH1 (soup : Node) : Option Node :=
  (selectTag soup "h1").head?

/-! ## `iso_week_number` (lines 17–23)

The script calls `datetime.date.isocalendar()`, so the embedding reproduces
CPython's `datetime` calendar arithmetic (`_is_leap`, `_days_before_year`,
`_days_before_month`, `_days_in_month`, `_ymd2ord`, `_isoweek1monday`, and
the week component of `isocalendar`).  Python `//` and `%` are `Int` `/`
(`Int.ediv`) and `%` (`Int.emod`): floor semantics, identical to Python's
for the positive divisors used here. -/

/-- CPython `_is_leap(year)`. -/
def isLeapYear (y : Int) : Bool :=
  y % 4 == 0 && (y % 100 != 0 || y % 400 == 0)

/-- CPython `_days_before_year(year)`: days between 0001-01-01 and
January 1 of `year`. -/
def daysBeforeYear (y : Int) : Int :=
  (y - 1) * 365 + (y - 1) / 4 - (y - 1) / 100 + (y - 1) / 400

/-- CPython `_days_in_month(year, month)` (the `_DAYS_IN_MONTH` table, with
February adjusted in leap years). -/
def daysInMonth (y m : Int) : Int :=
  if m = 2 then (if isLeapYear y then 29 else 28)
  else if m = 4 ∨ m = 6 ∨ m = 9 ∨ m = 11 then 30
  else 31

/-- CPython `_days_before_month(year, month)` (the precomputed
`_DAYS_BEFORE_MONTH` table, plus one after February in leap years). -/
def daysBeforeMonth (y m : Int) : Int :=
  (if m = 1 then 0 else if m = 2 then 31 else if m = 3 then 59
   else if m = 4 then 90 else if m = 5 then 120 else if m = 6 then 151
   else if m = 7 then 181 else if m = 8 then 212 else if m = 9 then 243
   else if m = 10 then 273 else if m = 11 then 304 else 334)
  + (if 2 < m ∧ isLeapYear y then 1 else 0)

/-- CPython `_ymd2ord(year, month, day)`: proleptic-Gregorian ordinal, with
0001-01-01 as day 1. -/
def ymd2ord (y m d : Int) : Int :=
  daysBeforeYear y + daysBeforeMonth y m + d

/-- A date Python's `datetime.date` can hold. -/
def ValidDate (y m d : Int) : Prop :=
  1 ≤ y ∧ y ≤ 9999 ∧ 1 ≤ m ∧ m ≤ 12 ∧ 1 ≤ d ∧ d ≤ daysInMonth y m

instance (y m d : Int) : Decidable (ValidDate y m d) := by
  unfold ValidDate; infer_instance

/-- CPython `_isoweek1monday(year)`: the ordinal of the Monday starting ISO
week 1 of `year` (the week containing the year's first Thursday). -/
def isoweek1monday (y : Int) : Int :=
  let firstday := ymd2ord y 1 1
  let firstweekday := (firstday + 6) % 7
  let week1monday := firstday - firstweekday
  if 3 < firstweekday then week1monday + 7 else week1monday

/-- The week component of CPython `date(y, m, d).isocalendar()`. -/
def isocalendarWeek (y m d : Int) : Int :=
  let today := ymd2ord y m d
  let week := (today - isoweek1monday y) / 7
  if week < 0 then
    (today - isoweek1monday (y - 1)) / 7 + 1
  else if 52 ≤ week then
    (if isoweek1monday (y + 1) ≤ today then 1 else week + 1)
  else week + 1

/-- `iso_week_number` (lines 17–23): the ISO week, clamped to 52. -/
def iso_week_number (y m d : Int) : Int :=
  min (isocalendarWeek y m d) 52

example : isocalendarWeek 2026 10 12 = 42 := by decide
example : isocalendarWeek 2026 1 1 = 1 := by decide
example : isocalendarWeek 2020 12 31 = 53 := by decide
example : iso_week_number 2020 12 31 = 52 := by decide
example : isocalendarWeek 2027 1 1 = 53 := by decide
example : isocalendarWeek 2016 1 1 = 53 := by decide
example : isocalendarWeek 2021 1 1 = 53 := by decide

/-! ## `scrape_week` (lines 197–232) and `main` (lines 235–250)

The HTTP response is modelled as its status code together with the document
tree that `BeautifulSoup` yields from its body text; the filesystem write of
`main` is modelled as the payload record it serialises (UTC timestamp, JSON
encoding and directory creation are library effects outside the claims). -/

/-- An HTTP response as `scrape_week` consumes it: the final status code and
the parse of the body text. -/
structure HttpResponse where
  status : Int
  doc : Node

/-- `requests.Response.raise_for_status()`: raises `HTTPError` exactly for
client-error (4xx) and server-error (5xx) status codes. -/
def raise_for_status (r : HttpResponse) : Except String Unit :=
  if 400 ≤ r.status ∧ r.status < 600 then .error "HTTPError" else .ok ()

/-- Zero-padded week formatting, `"{week:02d}"` in the URL template
(line 13). -/
def formatWeek02 (w : Int) : String :=
  if 0 ≤ w ∧ w < 10 then "0" ++ toString w else toString w

/-- The URL built from `BASE + MANUAL_PATH.format(week=week)`
(lines 13 and 198). -/
def weekUrl (week : Int) : String :=
  BASE ++ "/study/manual/come-follow-me-for-home-and-church-old-testament-2026/"
    ++ formatWeek02 week ++ "?lang=eng"

/-- The dictionary `scrape_week` returns (lines 225–232), minus the
wall-clock `generated_at_utc` timestamp. -/
structure Payload where
  week_number : Int
  source_url : String
  image_url : String
  small_heading : String
  big_heading : String

/-- `scrape_week` (lines 197–232): fail when `raise_for_status` raises,
otherwise extract the two headings and the top image from the parsed
document. -/
def scrape_week (week : Int) (r : HttpResponse) : Except String Payload :=
  match raise_for_status r with
  | .error e => .error e
  | .ok _ =>
    .ok { week_number := week
          source_url := weekUrl week
          image_url := pick_top_image r.doc
          small_heading := get_text_or_empty (selectPTitleNumber r.doc)
          big_heading := get_text_or_empty (selectH1 r.doc) }

/-- The observable outcome of one run of `main`: whether the process exits
zero, and the payload written to `data/come_follow_me_this_week.json` (the
file is written only on the success path; on failure the exception is
re-raised after the error line, so nothing is written). -/
structure RunResult where
  exitOk : Bool
  written : Option Payload

/-- `main` (lines 235–250), given today's date and the HTTP response the
single GET produces: compute the clamped week, scrape, and either write the
payload and exit zero or print the error and re-raise (non-zero exit, no
write). -/
def runMain (y m d : Int) (r : HttpResponse) : RunResult :=
  let week := iso_week_number y m d
  match scrape_week week r with
  | .error _ => { exitOk := false, written := none }
  | .ok payload => { exitOk := true, written := some payload }

/-! ## Lemmas: the sorted candidate list -/

/-- The width preorder the sort key `lambda x: x[0]` induces. -/
def widthLE (a b : Nat × String) : Prop := a.1 ≤ b.1

instance : DecidableRel widthLE := fun a b => Nat.decLe a.1 b.1

instance : IsTotal (Nat × String) widthLE := ⟨fun a b => Nat.le_total a.1 b.1⟩

instance : IsTrans (Nat × String) widthLE := ⟨fun _ _ _ h1 h2 => Nat.le_trans h1 h2⟩

theorem insertAsc_eq_orderedInsert (p : Nat × String) (l : List (Nat × String)) :
    insertAsc p l = l.orderedInsert widthLE p := by
  induction l with
  | nil => rfl
  | cons q qs ih => simp only [insertAsc, List.orderedInsert, ih]; rfl

theorem sortByWidth_eq_insertionSort (l : List (Nat × String)) :
    sortByWidth l = l.insertionSort widthLE := by
  induction l with
  | nil => rfl
  | cons p ps ih => simp only [sortByWidth, List.insertionSort, ih, insertAsc_eq_orderedInsert]

theorem sortByWidth_sorted (l : List (Nat × String)) :
    List.Pairwise widthLE (sortByWidth l) := by
  rw [sortByWidth_eq_insertionSort]
  exact List.sorted_insertionSort widthLE l

theorem sortByWidth_perm (l : List (Nat × String)) : (sortByWidth l).Perm l := by
  rw [sortByWidth_eq_insertionSort]
  exact List.perm_insertionSort widthLE l

/-- Among the candidates, the one of numerically largest declared width
that occurs last in the list; `none` only for the empty list.  This is the
element Python's stable ascending sort leaves in final position. -/
def lastLargestCandidate : List (Nat × String) → Option (Nat × String)
  | [] => none
  | p :: ps =>
    match lastLargestCandidate ps with
    | none => some p
    | some m => if m.1 < p.1 then some p else some m

theorem lastLargestCandidate_eq_none {l : List (Nat × String)}
    (h : lastLargestCandidate l = none) : l = [] := by
  cases l with
  | nil => rfl
  | cons p ps =>
    exfalso
    rcases hps : lastLargestCandidate ps with _ | m' <;>
      simp only [lastLargestCandidate, hps] at h
    · exact Option.noConfusion h
    · split at h <;> simp at h

theorem lastLargestCandidate_mem {l : List (Nat × String)} {m : Nat × String}
    (h : lastLargestCandidate l = some m) : m ∈ l := by
  induction l generalizing m with
  | nil => simp [lastLargestCandidate] at h
  | cons p ps ih =>
    rcases hps : lastLargestCandidate ps with _ | m' <;>
      simp only [lastLargestCandidate, hps] at h
    · simp at h
      simp [h]
    · by_cases hlt : m'.1 < p.1
      · rw [if_pos hlt] at h
        simp at h
        simp [h]
      · rw [if_neg hlt] at h
        simp at h
        subst h
        exact List.mem_cons_of_mem p (ih hps)

theorem lastLargestCandidate_max {l : List (Nat × String)} {m : Nat × String}
    (h : lastLargestCandidate l = some m) : ∀ x ∈ l, x.1 ≤ m.1 := by
  induction l generalizing m with
  | nil => simp [lastLargestCandidate] at h
  | cons p ps ih =>
    intro x hx
    rcases hps : lastLargestCandidate ps with _ | m' <;>
      simp only [lastLargestCandidate, hps] at h
    · have hnil : ps = [] := lastLargestCandidate_eq_none hps
      subst hnil
      simp at h hx
      simp [hx, h]
    · rcases List.mem_cons.mp hx with he | hmem
      · by_cases hlt : m'.1 < p.1
        · rw [if_pos hlt] at h
          simp at h
          subst h
          rw [he]
        · rw [if_neg hlt] at h
          simp at h
          subst h
          rw [he]
          omega
      · have hxm : x.1 ≤ m'.1 := ih hps x hmem
        by_cases hlt : m'.1 < p.1
        · rw [if_pos hlt] at h
          simp at h
          subst h
          omega
        · rw [if_neg hlt] at h
          simp at h
          subst h
          exact hxm

theorem lastLargestCandidate_isSome {l : List (Nat × String)} (h : l ≠ []) :
    ∃ m, lastLargestCandidate l = some m := by
  rcases hl : lastLargestCandidate l with _ | m
  · exact absurd (lastLargestCandidate_eq_none hl) h
  · exact ⟨m, rfl⟩

theorem insertAsc_getLast? (p : Nat × String) (l : List (Nat × String))
    (h : List.Pairwise widthLE l) :
    (insertAsc p l).getLast? =
      (match l.getLast? with
       | none => some p
       | some m => some (if m.1 < p.1 then p else m)) := by
  induction l with
  | nil => rfl
  | cons q qs ih =>
    simp only [insertAsc]
    by_cases hpq : p.1 ≤ q.1
    · rw [if_pos hpq, List.getLast?_cons_cons]
      have hne : (q :: qs) ≠ [] := List.cons_ne_nil q qs
      obtain ⟨m, hm⟩ : ∃ m, (q :: qs).getLast? = some m :=
        ⟨(q :: qs).getLast hne, List.getLast?_eq_getLast_of_ne_nil hne⟩
      rw [hm]
      have hmem : m ∈ q :: qs := by
        rcases List.mem_getLast?_eq_getLast (l := q :: qs) (x := m) (by rw [hm]; rfl)
          with ⟨_, hme⟩
        exact hme ▸ List.getLast_mem _
      have hqm : q.1 ≤ m.1 := by
        rcases List.mem_cons.mp hmem with he | hmem'
        · simp [he]
        · exact List.rel_of_pairwise_cons h hmem'
      have hnot : ¬ m.1 < p.1 := by omega
      simp [hnot]
    · rw [if_neg hpq]
      have hqs : List.Pairwise widthLE qs := h.tail
      cases qs with
      | nil =>
        simp only [insertAsc, List.getLast?_cons_cons, List.getLast?_singleton]
        have : q.1 < p.1 := by omega
        simp [this]
      | cons a as =>
        obtain ⟨b, bs, hb⟩ : ∃ b bs, insertAsc p (a :: as) = b :: bs := by
          simp only [insertAsc]
          by_cases hpa : p.1 ≤ a.1 <;> simp [hpa]
        rw [hb, List.getLast?_cons_cons, ← hb, ih hqs, List.getLast?_cons_cons]

theorem sortByWidth_getLast? (l : List (Nat × String)) :
    (sortByWidth l).getLast? = lastLargestCandidate l := by
  induction l with
  | nil => rfl
  | cons p ps ih =>
    simp only [sortByWidth, lastLargestCandidate]
    rw [insertAsc_getLast? p (sortByWidth ps) (sortByWidth_sorted ps), ih]
    rcases lastLargestCandidate ps with _ | m
    · rfl
    · by_cases hlt : m.1 < p.1 <;> simp [hlt]

theorem srcsetCandidates_empty : srcsetCandidates "" = [] := rfl

/-- Bridging lemma: on a non-empty candidate list, `_largest_from_srcset`
returns the URL of the last candidate of maximal width. -/
theorem largest_from_srcset_eq_lastLargest {srcset : String}
    (h : srcsetCandidates srcset ≠ []) :
    ∃ q, lastLargestCandidate (srcsetCandidates srcset) = some q ∧
      largest_from_srcset srcset = q.2 := by
  have hne : srcset ≠ "" := by
    intro he
    rw [he, srcsetCandidates_empty] at h
    exact h rfl
  obtain ⟨q, hq⟩ := lastLargestCandidate_isSome h
  refine ⟨q, hq, ?_⟩
  unfold largest_from_srcset
  rw [if_neg hne, sortByWidth_getLast?, hq]

/-- C3: for every responsive candidate list with width descriptors, the
selected URL is one whose declared width is numerically largest, regardless
of entry order; width descriptors that fail to parse drop only that single
candidate; and on `"a.jpg 100w, b.jpg 640w, c.jpg 300w"` the selection is
`b.jpg`. -/
theorem largest_from_srcset_picks_max :
    largest_from_srcset "a.jpg 100w, b.jpg 640w, c.jpg 300w" = "b.jpg" ∧
    largest_from_srcset "a.jpg 100w, b.jpg notanumber, c.jpg 300w" = "c.jpg" ∧
    ∀ srcset : String, srcsetCandidates srcset ≠ [] →
      ∃ q ∈ srcsetCandidates srcset,
        largest_from_srcset srcset = q.2 ∧
        ∀ r ∈ srcsetCandidates srcset, r.1 ≤ q.1 := by
  refine ⟨by decide, by decide, ?_⟩
  intro srcset h
  obtain ⟨q, hq, hval⟩ := largest_from_srcset_eq_lastLargest h
  exact ⟨q, lastLargestCandidate_mem hq, hval, lastLargestCandidate_max hq⟩

/-- Witness for C3 at the spec's concrete candidate list. -/
theorem largest_from_srcset_picks_max_witness :
    ∃ q ∈ srcsetCandidates "a.jpg 100w, b.jpg 640w, c.jpg 300w",
      largest_from_srcset "a.jpg 100w, b.jpg 640w, c.jpg 300w" = q.2 ∧
      ∀ r ∈ srcsetCandidates "a.jpg 100w, b.jpg 640w, c.jpg 300w", r.1 ≤ q.1 :=
  largest_from_srcset_picks_max.2.2 "a.jpg 100w, b.jpg 640w, c.jpg 300w" (by decide)

/-- Counterexample to C4: on `"a.jpg 640w, b.jpg 640w"` both candidates
declare width 640, and the selector returns `b.jpg` — the LAST occurrence —
not the first-occurring `a.jpg` the claim predicts. -/
theorem largest_from_srcset_tie_cex :
    srcsetCandidates "a.jpg 640w, b.jpg 640w" = [(640, "a.jpg"), (640, "b.jpg")] ∧
    largest_from_srcset "a.jpg 640w, b.jpg 640w" = "b.jpg" ∧
    largest_from_srcset "a.jpg 640w, b.jpg 640w" ≠ "a.jpg" := by
  refine ⟨by decide, by decide, by decide⟩

/-- C4 (amended): when several candidates tie for the numerically largest
width, the selector chooses the one occurring LAST in the list (Python's
ascending stable sort leaves the last-occurring maximum in final position,
and the code takes `candidates[-1]`). -/
theorem largest_from_srcset_tie_breaks_last :
    ∀ srcset : String, srcsetCandidates srcset ≠ [] →
      ∃ q, lastLargestCandidate (srcsetCandidates srcset) = some q ∧
        largest_from_srcset srcset = q.2 :=
  fun _ h => largest_from_srcset_eq_lastLargest h

/-- Witness for the amended C4 at the tie list. -/
theorem largest_from_srcset_tie_breaks_last_witness :
    ∃ q, lastLargestCandidate (srcsetCandidates "a.jpg 640w, b.jpg 640w") = some q ∧
      largest_from_srcset "a.jpg 640w, b.jpg 640w" = q.2 :=
  largest_from_srcset_tie_breaks_last "a.jpg 640w, b.jpg 640w" (by decide)

/-! ## Lemmas: the scan loops of `pick_top_image` -/

theorem scanElems_append (seen : List String) (l₁ l₂ : List Node) :
    scanElems seen (l₁ ++ l₂) =
      (match scanElems seen l₁ with
       | (some u, s) => (some u, s)
       | (none, s) => scanElems s l₂) := by
  induction l₁ generalizing seen with
  | nil => rfl
  | cons el rest ih =>
    rw [List.cons_append]
    simp only [scanElems]
    split_ifs
    · exact ih seen
    · exact ih seen
    · exact ih _
    · rfl

theorem scanElems_good {seen : List String} {l : List Node} {u : String} {s : List String}
    (h : scanElems seen l = (some u, s)) : looks_like_bad_image u = false := by
  induction l generalizing seen with
  | nil => simp [scanElems] at h
  | cons el rest ih =>
    simp only [scanElems] at h
    split_ifs at h with h1 h2 h3
    · exact ih h
    · exact ih h
    · exact ih h
    · simp only [Prod.mk.injEq, Option.some.injEq] at h
      obtain ⟨hu, _⟩ := h
      subst hu
      simpa using h3

theorem scanElems_seen_mono {seen : List String} {l : List Node} {r : Option String}
    {s : List String} (h : scanElems seen l = (r, s)) : ∀ x ∈ seen, x ∈ s := by
  induction l generalizing seen with
  | nil =>
    simp only [scanElems, Prod.mk.injEq] at h
    intro x hx
    rw [← h.2]
    exact hx
  | cons el rest ih =>
    simp only [scanElems] at h
    split_ifs at h with h1 h2 h3
    · exact ih h
    · exact ih h
    · intro x hx
      exact ih h x (List.mem_cons_of_mem _ hx)
    · simp only [Prod.mk.injEq] at h
      intro x hx
      rw [← h.2]
      exact List.mem_cons_of_mem _ hx

theorem scanElems_none_again {seen : List String} {l : List Node} {s : List String}
    (h : scanElems seen l = (none, s)) :
    ∀ seen' : List String, (∀ x ∈ s, x ∈ seen') → scanElems seen' l = (none, seen') := by
  induction l generalizing seen with
  | nil =>
    intro seen' hsub
    rfl
  | cons el rest ih =>
    intro seen' hsub
    simp only [scanElems] at h ⊢
    set u1 := pyStrip (pyOrS (elementUrl el) "") with hu1
    set u2 := absolute_url u1 with hu2
    by_cases h1 : u1 = ""
    · rw [if_pos h1] at h ⊢
      exact ih h seen' hsub
    · rw [if_neg h1] at h ⊢
      by_cases h2 : (u2 = "" || seen.contains u2) = true
      · rw [if_pos h2] at h
        have hseen : ∀ x ∈ seen, x ∈ s := scanElems_seen_mono h
        have h2' : (u2 = "" || seen'.contains u2) = true := by
          rcases Bool.or_eq_true_iff.mp h2 with hc | hc
          · exact Bool.or_eq_true_iff.mpr (Or.inl hc)
          · refine Bool.or_eq_true_iff.mpr (Or.inr ?_)
            have hm : u2 ∈ seen := by simpa using hc
            simpa using hsub u2 (hseen u2 hm)
        rw [if_pos h2']
        exact ih h seen' hsub
      · rw [if_neg h2] at h
        by_cases h3 : looks_like_bad_image u2 = true
        · rw [if_pos h3] at h
          have hadd : u2 ∈ s :=
            scanElems_seen_mono h u2 (List.mem_cons_self u2 seen)
          have h2' : (u2 = "" || seen'.contains u2) = true := by
            refine Bool.or_eq_true_iff.mpr (Or.inr ?_)
            simpa using hsub u2 hadd
          rw [if_pos h2']
          exact ih h seen' hsub
        · rw [if_neg h3] at h
          exact absurd h (by simp)

theorem scanRoots_good {seen : List String} {roots : List (Node × Bool)} {u : String}
    {s : List String} (h : scanRoots seen roots = (some u, s)) :
    looks_like_bad_image u = false := by
  induction roots generalizing seen with
  | nil => simp [scanRoots] at h
  | cons rf rest ih =>
    obtain ⟨r, f⟩ := rf
    simp only [scanRoots] at h
    rcases he : scanElems seen (rootElems r f) with ⟨ro, so⟩
    rw [he] at h
    cases ro with
    | some v =>
      simp only [Prod.mk.injEq, Option.some.injEq] at h
      obtain ⟨hv, _⟩ := h
      exact hv ▸ scanElems_good he
    | none => exact ih h

theorem scanRoots_seen_mono {seen : List String} {roots : List (Node × Bool)}
    {r : Option String} {s : List String} (h : scanRoots seen roots = (r, s)) :
    ∀ x ∈ seen, x ∈ s := by
  induction roots generalizing seen with
  | nil =>
    simp only [scanRoots, Prod.mk.injEq] at h
    intro x hx
    rw [← h.2]
    exact hx
  | cons rf rest ih =>
    obtain ⟨rt, f⟩ := rf
    simp only [scanRoots] at h
    rcases he : scanElems seen (rootElems rt f) with ⟨ro, so⟩
    rw [he] at h
    cases ro with
    | some v =>
      simp only [Prod.mk.injEq] at h
      intro x hx
      rw [← h.2]
      exact scanElems_seen_mono he x hx
    | none =>
      intro x hx
      exact ih h x (scanElems_seen_mono he x hx)

/-- If the scoped scan succeeds, that URL is the result. -/
theorem pick_top_image_of_scanRoots {soup : Node} {u : String} {s : List String}
    (h : scanRoots [] (searchRootsOf soup) = (some u, s)) :
    pick_top_image soup = u := by
  unfold pick_top_image
  rw [h]

/-- The result of `pick_top_image`, when non-empty, came out of one of the
two scan loops and therefore survived `_looks_like_bad_image`. -/
theorem pick_top_image_good {soup : Node} (h : pick_top_image soup ≠ "") :
    looks_like_bad_image (pick_top_image soup) = false := by
  rcases hr : scanRoots [] (searchRootsOf soup) with ⟨ro, so⟩
  cases ro with
  | some v =>
    have hv : pick_top_image soup = v := by unfold pick_top_image; rw [hr]
    rw [hv]
    exact scanRoots_good hr
  | none =>
    rcases h2 : scanElems so (rootElems soup false) with ⟨ro2, so2⟩
    cases ro2 with
    | some v =>
      have hv : pick_top_image soup = v := by
        unfold pick_top_image
        rw [hr]
        simp [h2]
      rw [hv]
      exact scanElems_good h2
    | none =>
      have hv : pick_top_image soup = "" := by
        unfold pick_top_image
        rw [hr]
        simp [h2]
      exact absurd hv h

/-- C2: whenever the Image Selector returns a non-empty URL, that URL's
lowercased text contains no denylisted substring, does not start an inline
`data:image` payload, and does not carry a vector-image extension (neither
ending in `.svg` nor containing `.svg?`). -/
theorem pick_top_image_no_junk (soup : Node) (h : pick_top_image soup ≠ "") :
    pyStartsWith (pyLower (pyStrip (pick_top_image soup))) "data:image" = false ∧
    pyEndsWith (pyLower (pyStrip (pick_top_image soup))) ".svg" = false ∧
    pyContains (pyLower (pyStrip (pick_top_image soup))) ".svg?" = false ∧
    ∀ s ∈ badSubstrings, pyContains (pyLower (pyStrip (pick_top_image soup))) s = false := by
  have hb := pick_top_image_good h
  simp only [looks_like_bad_image] at hb
  split_ifs at hb with h1 h2 h3
  simp only [Bool.or_eq_true, not_or, Bool.not_eq_true] at h3
  refine ⟨by simpa using h2, h3.1, h3.2, ?_⟩
  intro s hs
  have := List.any_eq_false.mp hb s hs
  simpa using this

/-- Witness for C2 on a document whose selector returns a real photo URL. -/
theorem pick_top_image_no_junk_witness :
    pyStartsWith (pyLower (pyStrip (pick_top_image (.elem "[document]" []
        [.elem "img" [("src", "/photo.jpg")] []])))) "data:image" = false ∧
    pyEndsWith (pyLower (pyStrip (pick_top_image (.elem "[document]" []
        [.elem "img" [("src", "/photo.jpg")] []])))) ".svg" = false ∧
    pyContains (pyLower (pyStrip (pick_top_image (.elem "[document]" []
        [.elem "img" [("src", "/photo.jpg")] []])))) ".svg?" = false ∧
    ∀ s ∈ badSubstrings,
      pyContains (pyLower (pyStrip (pick_top_image (.elem "[document]" []
        [.elem "img" [("src", "/photo.jpg")] []])))) s = false :=
  pick_top_image_no_junk (.elem "[document]" [] [.elem "img" [("src", "/photo.jpg")] []])
    (by decide)

/-- C1 (amended): the selector list `["picture", "figure img", "img"]` is
swept per search root, so when the search scope consists of a single root —
in particular whenever no `main`/`article` containers exist and the scope is
the whole document — every responsive-image-group (`picture`) element of the
scope is examined before any plain image, and a group element later in the
DOM wins over an acceptable plain image earlier in the DOM.  (With several
containers the passes are per container, not global; see the
counterexample.) -/
theorem picture_pass_first_in_single_root (soup r : Node) (f : Bool) (u : String)
    (s : List String)
    (hroots : searchRootsOf soup = [(r, f)])
    (hpic : scanElems [] (selectTag r "picture") = (some u, s)) :
    pick_top_image soup = u := by
  have h1 : scanElems [] (rootElems r f) = (some u, s) := by
    unfold rootElems
    rw [List.append_assoc, scanElems_append, hpic]
  have h2 : scanRoots [] (searchRootsOf soup) = (some u, s) := by
    rw [hroots]
    simp only [scanRoots, h1]
  exact pick_top_image_of_scanRoots h2

/-- A single-`main` document in which an acceptable plain `img` precedes a
`picture`; the `picture` still wins. -/
def singleMainDoc : Node :=
  .elem "[document]" [] [.elem "main" [] [
    .elem "img" [("src", "/a.jpg")] [],
    .elem "picture" [] [.elem "source" [("srcset", "/b.jpg 100w")] []]]]

/-- The `main` element of `singleMainDoc`. -/
def singleMainRoot : Node :=
  .elem "main" [] [
    .elem "img" [("src", "/a.jpg")] [],
    .elem "picture" [] [.elem "source" [("srcset", "/b.jpg 100w")] []]]

/-- Witness for the amended C1: on `singleMainDoc` the later `picture`
beats the earlier acceptable `img`. -/
theorem picture_pass_first_in_single_root_witness :
    pick_top_image singleMainDoc = "https://www.churchofjesuschrist.org/b.jpg" :=
  picture_pass_first_in_single_root singleMainDoc singleMainRoot false
    "https://www.churchofjesuschrist.org/b.jpg"
    ["https://www.churchofjesuschrist.org/b.jpg"] rfl rfl

/-- The document refuting C1 as stated: two `article` containers; the first
holds an acceptable plain `img` (`/a.jpg`), the second — later in the DOM —
holds a `picture` whose candidate URL (`/b.jpg`) is acceptable. -/
def twoArticleDoc : Node :=
  .elem "[document]" [] [.elem "body" [] [
    .elem "article" [] [.elem "img" [("src", "/a.jpg")] []],
    .elem "article" [] [.elem "picture" [] [
      .elem "source" [("srcset", "/b.jpg 100w")] []]]]]

/-- The later `picture` element of `twoArticleDoc`. -/
def twoArticleDocPicture : Node :=
  .elem "picture" [] [.elem "source" [("srcset", "/b.jpg 100w")] []]

/-- Counterexample to C1: group passes are NOT swept to completion over the
whole search scope.  In `twoArticleDoc` the search scope is both `article`
containers; the responsive-image-group appears later in the DOM and yields
the acceptable URL `/b.jpg`, yet the selector returns the earlier plain
image's `/a.jpg`, because all three selector passes of the first container
run before any pass of the second. -/
theorem pick_top_image_two_container_cex :
    pick_top_image twoArticleDoc = "https://www.churchofjesuschrist.org/a.jpg" ∧
    pick_from_picture_tag (some twoArticleDocPicture)
      = "https://www.churchofjesuschrist.org/b.jpg" ∧
    looks_like_bad_image "https://www.churchofjesuschrist.org/b.jpg" = false ∧
    "https://www.churchofjesuschrist.org/a.jpg"
      ≠ "https://www.churchofjesuschrist.org/b.jpg" := by
  refine ⟨by decide, by decide, by decide, by decide⟩

/-! ## Lemmas: documents without images -/

mutual

/-- The tree rooted at `n` contains no `img` and no `picture` element
(`n` itself included). -/
def noImgPicN : Node → Bool
  | .text _ => true
  | .elem nm _ ks => !(nm == "img") && (!(nm == "picture") && noImgPicL ks)

/-- `noImgPicN` over a forest of siblings. -/
def noImgPicL : List Node → Bool
  | [] => true
  | c :: cs => noImgPicN c && noImgPicL cs

end

theorem noImgPicN_selects_nil (n : Node) (h : noImgPicN n = true) :
    matchTagN "img" n = [] ∧ matchTagN "picture" n = [] ∧
    ∀ fg : Bool, figImgsN fg n = [] := by
  induction n using Node.rec
    (motive_2 := fun l => noImgPicL l = true →
      matchTagL "img" l = [] ∧ matchTagL "picture" l = [] ∧
      ∀ fg : Bool, figImgsL fg l = []) with
  | elem nm a ks ihks =>
    simp only [noImgPicN, Bool.and_eq_true, Bool.not_eq_true'] at h
    obtain ⟨hni, hnp, hks⟩ := h
    obtain ⟨e1, e2, e3⟩ := ihks hks
    refine ⟨?_, ?_, ?_⟩
    · simp [matchTagN, hni, e1]
    · simp [matchTagN, hnp, e2]
    · intro fg
      simp [figImgsN, hni, e3]
  | text s => simp [matchTagN, figImgsN]
  | nil => simp [matchTagL, figImgsL]
  | cons c cs ihc ihcs =>
    rename_i hl
    simp only [noImgPicL, Bool.and_eq_true] at hl
    obtain ⟨hc, hcs⟩ := hl
    obtain ⟨c1, c2, c3⟩ := ihc hc
    obtain ⟨d1, d2, d3⟩ := ihcs hcs
    exact ⟨by simp [matchTagL, c1, d1], by simp [matchTagL, c2, d2],
      fun fg => by simp [figImgsL, c3, d3]⟩

theorem noImgPicL_selects_nil (l : List Node) (h : noImgPicL l = true) :
    matchTagL "img" l = [] ∧ matchTagL "picture" l = [] ∧
    ∀ fg : Bool, figImgsL fg l = [] := by
  induction l with
  | nil => simp [matchTagL, figImgsL]
  | cons c cs ih =>
    simp only [noImgPicL, Bool.and_eq_true] at h
    obtain ⟨c1, c2, c3⟩ := noImgPicN_selects_nil c h.1
    obtain ⟨d1, d2, d3⟩ := ih h.2
    exact ⟨by simp [matchTagL, c1, d1], by simp [matchTagL, c2, d2],
      fun fg => by simp [figImgsL, c3, d3]⟩

theorem noImgPicN_containers (n : Node) (h : noImgPicN n = true) :
    ∀ fg : Bool, ∀ rf ∈ mainArticleN fg n, noImgPicN rf.1 = true := by
  induction n using Node.rec
    (motive_2 := fun l => noImgPicL l = true →
      ∀ fg : Bool, ∀ rf ∈ mainArticleL fg l, noImgPicN rf.1 = true) with
  | elem nm a ks ihks =>
    intro fg rf hrf
    simp only [mainArticleN] at hrf
    rcases List.mem_append.mp hrf with hin | hin
    · split_ifs at hin with hma
      · simp at hin
        rw [hin]
        exact h
      · simp at hin
    · have hks : noImgPicL ks = true := by
        simp only [noImgPicN, Bool.and_eq_true] at h
        exact h.2.2
      exact ihks hks _ rf hin
  | text s => intro fg rf hrf; simp [mainArticleN] at hrf
  | nil =>
    rename_i hl fg rf hrf
    simp [mainArticleL] at hrf
  | cons c cs ihc ihcs =>
    rename_i hl fg rf hrf
    simp only [noImgPicL, Bool.and_eq_true] at hl
    simp only [mainArticleL] at hrf
    rcases List.mem_append.mp hrf with hin | hin
    · exact ihc hl.1 fg rf hin
    · exact ihcs hl.2 fg rf hin

theorem noImgPicL_containers (l : List Node) (h : noImgPicL l = true) :
    ∀ fg : Bool, ∀ rf ∈ mainArticleL fg l, noImgPicN rf.1 = true := by
  induction l with
  | nil => intro fg rf hrf; simp [mainArticleL] at hrf
  | cons c cs ih =>
    intro fg rf hrf
    simp only [noImgPicL, Bool.and_eq_true] at h
    simp only [mainArticleL] at hrf
    rcases List.mem_append.mp hrf with hin | hin
    · exact noImgPicN_containers c h.1 fg rf hin
    · exact ih h.2 fg rf hin

/-- A tree without `img`/`picture` elements contributes an empty element
sequence to the scan. -/
theorem rootElems_nil_of_noImgPic {r : Node} (h : noImgPicN r = true) (f : Bool) :
    rootElems r f = [] := by
  cases r with
  | text s => rfl
  | elem nm a ks =>
    simp only [noImgPicN, Bool.and_eq_true] at h
    obtain ⟨e1, e2, e3⟩ := noImgPicL_selects_nil ks h.2.2
    simp [rootElems, selectTag, selectFigureImg, e1, e2, e3]

theorem scanRoots_none_of_empty {roots : List (Node × Bool)} {seen : List String}
    (h : ∀ rf ∈ roots, rootElems rf.1 rf.2 = []) :
    scanRoots seen roots = (none, seen) := by
  induction roots generalizing seen with
  | nil => rfl
  | cons rf rest ih =>
    obtain ⟨r, f⟩ := rf
    have hr : rootElems r f = [] := h (r, f) (List.mem_cons_self _ _)
    simp only [scanRoots, hr, scanElems]
    exact ih (fun x hx => h x (List.mem_cons_of_mem _ hx))

/-- C6: the Image Selector searches the `main`/`article` containers when any
exist and otherwise the whole document (`searchRootsOf`); the first URL the
ordered traversal accepts is returned; when the scoped traversal over the
whole document yields nothing the repeated identical pass adds nothing; and
a document with no `img`/`picture` elements at all yields `""`. -/
theorem pick_top_image_traversal_spec :
    (∀ soup : Node, soupContainers soup = [] →
      pick_top_image soup = ((scanElems [] (rootElems soup false)).1.getD "")) ∧
    (∀ (soup : Node) (u : String) (s : List String),
      scanRoots [] (searchRootsOf soup) = (some u, s) → pick_top_image soup = u) ∧
    (∀ soup : Node, noImgPicN soup = true → pick_top_image soup = "") := by
  refine ⟨?_, ?_, ?_⟩
  · intro soup hc
    have hroots : searchRootsOf soup = [(soup, false)] := by
      unfold searchRootsOf
      rw [hc]
      rfl
    rcases he : scanElems [] (rootElems soup false) with ⟨ro, so⟩
    cases ro with
    | some u =>
      have hs : scanRoots [] (searchRootsOf soup) = (some u, so) := by
        rw [hroots]
        simp [scanRoots, he]
      rw [pick_top_image_of_scanRoots hs]
      rfl
    | none =>
      have h1 : scanRoots [] (searchRootsOf soup) = (none, so) := by
        rw [hroots]
        simp [scanRoots, he]
      have h2 : scanElems so (rootElems soup false) = (none, so) :=
        scanElems_none_again he so (fun x hx => hx)
      unfold pick_top_image
      rw [h1]
      simp [h2]
  · intro soup u s h
    exact pick_top_image_of_scanRoots h
  · intro soup hno
    have hre : ∀ rf ∈ searchRootsOf soup, rootElems rf.1 rf.2 = [] := by
      intro rf hrf
      unfold searchRootsOf at hrf
      by_cases hc : (soupContainers soup).isEmpty
      · rw [if_pos hc] at hrf
        simp at hrf
        rw [hrf]
        exact rootElems_nil_of_noImgPic hno false
      · rw [if_neg hc] at hrf
        cases soup with
        | text s => simp [soupContainers] at hrf
        | elem nm a ks =>
          have hks : noImgPicL ks = true := by
            simp only [noImgPicN, Bool.and_eq_true] at hno
            exact hno.2.2
          simp only [soupContainers] at hrf
          have hsub := noImgPicL_containers ks hks false rf hrf
          exact rootElems_nil_of_noImgPic hsub rf.2
    have h1 : scanRoots [] (searchRootsOf soup) = (none, []) :=
      scanRoots_none_of_empty hre
    have h2 : rootElems soup false = [] := rootElems_nil_of_noImgPic hno false
    unfold pick_top_image
    rw [h1]
    simp [h2, scanElems]

/-- Witness for C6: an imageless document takes the empty-result path, and a
document with one photo takes the scoped-success path. -/
theorem pick_top_image_traversal_spec_witness :
    pick_top_image (.elem "[document]" [] [.elem "p" [] [.text "hi"]])
      = ((scanElems [] (rootElems (.elem "[document]" [] [.elem "p" [] [.text "hi"]])
          false)).1.getD "") ∧
    pick_top_image (.elem "[document]" [] [.elem "p" [] [.text "hi"]]) = "" ∧
    pick_top_image (.elem "[document]" [] [.elem "img" [("src", "/photo.jpg")] []])
      = "https://www.churchofjesuschrist.org/photo.jpg" :=
  ⟨pick_top_image_traversal_spec.1 _ rfl,
   pick_top_image_traversal_spec.2.2 _ (by decide),
   pick_top_image_traversal_spec.2.1 _ "https://www.churchofjesuschrist.org/photo.jpg"
     ["https://www.churchofjesuschrist.org/photo.jpg"] rfl⟩

/-! ## Lemmas: the `<source>` loop of `_pick_from_picture_tag` -/

/-- An empty candidate list forces `_largest_from_srcset` to `""`. -/
theorem largest_of_no_candidates {ss : String} (h : srcsetCandidates ss = []) :
    largest_from_srcset ss = "" := by
  unfold largest_from_srcset
  split_ifs with h1
  · rfl
  · rw [h]
    rfl

/-- Sources whose stripped candidate-list attribute is empty are skipped. -/
theorem pickFromSources_none_of_all_empty {l : List Node}
    (h : ∀ t ∈ l, pyStrip (pyOrS (t.attr "srcset") "") = "") :
    pickFromSources l = none := by
  induction l with
  | nil => rfl
  | cons src rest ih =>
    have hs : pyStrip (pyOrS (src.attr "srcset") "") = "" :=
      h src (List.mem_cons_self _ _)
    simp only [pickFromSources, hs]
    simp
    exact ih (fun t ht => h t (List.mem_cons_of_mem _ ht))

/-- Skipping a prefix of empty-candidate-list sources. -/
theorem pickFromSources_append_skip {pre rest : List Node}
    (h : ∀ t ∈ pre, pyStrip (pyOrS (t.attr "srcset") "") = "") :
    pickFromSources (pre ++ rest) = pickFromSources rest := by
  induction pre with
  | nil => rfl
  | cons src pre' ih =>
    have hs : pyStrip (pyOrS (src.attr "srcset") "") = "" :=
      h src (List.mem_cons_self _ _)
    rw [List.cons_append]
    simp only [pickFromSources, hs]
    simp
    exact ih (fun t ht => h t (List.mem_cons_of_mem _ ht))

/-- Unfolding of `_pick_from_picture_tag` on a present tag. -/
theorem pick_from_picture_tag_some (pic : Node) :
    pick_from_picture_tag (some pic) =
      (match pickFromSources (selectTag pic "source") with
       | some url => url
       | none => pick_best_image_from_tag (findTag pic "img")) := rfl

/-- C5: for a responsive-image-group element, the first child candidate-list
attribute (in DOM order) that is non-empty decides the extraction: its
largest-width candidate when one parses; otherwise its first URL, returned
resolved to absolute, when that is non-empty.  When no child yields a
non-empty list, extraction falls back to the nested single image element.
In particular, the descriptor-less list `"a.jpg, b.jpg"` yields `a.jpg`
resolved against the base origin. -/
theorem pick_from_picture_spec :
    (pick_from_picture_tag (some (.elem "picture" []
        [.elem "source" [("srcset", "a.jpg, b.jpg")] []]))
      = "https://www.churchofjesuschrist.org/a.jpg") ∧
    (∀ pic : Node,
      (∀ t ∈ selectTag pic "source", pyStrip (pyOrS (t.attr "srcset") "") = "") →
      pick_from_picture_tag (some pic) = pick_best_image_from_tag (findTag pic "img")) ∧
    (∀ (pic src : Node) (pre post : List Node),
      selectTag pic "source" = pre ++ src :: post →
      (∀ t ∈ pre, pyStrip (pyOrS (t.attr "srcset") "") = "") →
      pyStrip (pyOrS (src.attr "srcset") "") ≠ "" →
      (∀ u : String,
        largest_from_srcset (pyStrip (pyOrS (src.attr "srcset") "")) = u → u ≠ "" →
        pick_from_picture_tag (some pic) = absolute_url u) ∧
      (srcsetCandidates (pyStrip (pyOrS (src.attr "srcset") "")) = [] →
        firstSrcsetUrl (pyStrip (pyOrS (src.attr "srcset") "")) ≠ "" →
        pick_from_picture_tag (some pic)
          = absolute_url (firstSrcsetUrl (pyStrip (pyOrS (src.attr "srcset") ""))))) := by
  refine ⟨by decide, ?_, ?_⟩
  · intro pic h
    rw [pick_from_picture_tag_some]
    rw [pickFromSources_none_of_all_empty h]
  · intro pic src pre post hsel hpre hss
    constructor
    · intro u hu hune
      rw [pick_from_picture_tag_some, hsel, pickFromSources_append_skip hpre]
      simp only [pickFromSources, hss]
      rw [hu]
      simp [hss, hune]
    · intro hcand hfu
      rw [pick_from_picture_tag_some, hsel, pickFromSources_append_skip hpre]
      simp only [pickFromSources, hss]
      rw [largest_of_no_candidates hcand]
      simp [hss, hfu]

/-- Witness for C5: a group whose first source has no candidate list and
whose second source carries the descriptor-less list `"a.jpg, b.jpg"`
yields that list's first URL, and a group with only a nested image element
falls back to the plain-image extraction. -/
theorem pick_from_picture_spec_witness :
    pick_from_picture_tag (some (.elem "picture" []
        [.elem "source" [] [],
         .elem "source" [("srcset", "a.jpg, b.jpg")] []]))
      = absolute_url (firstSrcsetUrl (pyStrip (pyOrS
          ((Node.elem "source" [("srcset", "a.jpg, b.jpg")] []).attr "srcset") ""))) ∧
    pick_from_picture_tag (some (.elem "picture" [] [.elem "img" [("src", "/n.jpg")] []]))
      = pick_best_image_from_tag
          (findTag (.elem "picture" [] [.elem "img" [("src", "/n.jpg")] []]) "img") :=
  ⟨(pick_from_picture_spec.2.2
      (.elem "picture" [] [.elem "source" [] [],
        .elem "source" [("srcset", "a.jpg, b.jpg")] []])
      (.elem "source" [("srcset", "a.jpg, b.jpg")] [])
      [.elem "source" [] []] [] rfl (by decide) (by decide)).2 (by decide) (by decide),
   pick_from_picture_spec.2.1
     (.elem "picture" [] [.elem "img" [("src", "/n.jpg")] []]) (by decide)⟩

/-- C10: for a plain image element whose candidate-list attribute is
non-empty but yields no parseable width descriptors, the candidate list is
ignored entirely: the result is exactly the fallback walk over the four
`src`-like attributes, so the first URL of the descriptor-less list is never
used for plain image elements. -/
theorem pick_best_image_unparseable_srcset (img : Node)
    (h1 : pyOrS (img.attr "srcset") (pyOrS (img.attr "data-srcset") "") ≠ "")
    (h2 : srcsetCandidates (pyOrS (img.attr "srcset") (pyOrS (img.attr "data-srcset") "")) = []) :
    pick_best_image_from_tag (some img) = srcAttrFallback img srcAttrNames := by
  show (let srcset := pyOrS (img.attr "srcset") (pyOrS (img.attr "data-srcset") "")
        let best := largest_from_srcset srcset
        if best ≠ "" then absolute_url best
        else srcAttrFallback img srcAttrNames) = srcAttrFallback img srcAttrNames
  simp only [largest_of_no_candidates h2]
  simp

/-- Witness for C10: an `img` carrying the descriptor-less list
`"a.jpg, b.jpg"` and `src="/x.jpg"` resolves to `/x.jpg`, not to `a.jpg`. -/
theorem pick_best_image_unparseable_srcset_witness :
    pick_best_image_from_tag (some (.elem "img"
        [("srcset", "a.jpg, b.jpg"), ("src", "/x.jpg")] []))
      = srcAttrFallback (.elem "img"
          [("srcset", "a.jpg, b.jpg"), ("src", "/x.jpg")] []) srcAttrNames ∧
    pick_best_image_from_tag (some (.elem "img"
        [("srcset", "a.jpg, b.jpg"), ("src", "/x.jpg")] []))
      = "https://www.churchofjesuschrist.org/x.jpg" :=
  ⟨pick_best_image_unparseable_srcset
      (.elem "img" [("srcset", "a.jpg, b.jpg"), ("src", "/x.jpg")] [])
      (by decide) (by decide),
   by decide⟩

/-! ## Lemmas: the ISO week computation -/

theorem isoweek1monday_eq (y : Int) :
    isoweek1monday y =
      (if 3 < (ymd2ord y 1 1 + 6) % 7
       then ymd2ord y 1 1 - (ymd2ord y 1 1 + 6) % 7 + 7
       else ymd2ord y 1 1 - (ymd2ord y 1 1 + 6) % 7) := rfl

/-- Week-1 Monday lies within three days of January 1. -/
theorem isoweek1monday_bounds (y : Int) :
    ymd2ord y 1 1 - 3 ≤ isoweek1monday y ∧ isoweek1monday y ≤ ymd2ord y 1 1 + 3 := by
  rw [isoweek1monday_eq]
  generalize ymd2ord y 1 1 = fd
  split_ifs with hc <;> omega

/-- Week-1 Mondays of all years fall on the same weekday, so they are
congruent modulo 7. -/
theorem isoweek1monday_mod (y : Int) : isoweek1monday y % 7 = 1 := by
  rw [isoweek1monday_eq]
  generalize ymd2ord y 1 1 = fd
  split_ifs with hc <;> omega

theorem ymd2ord_jan1 (y : Int) : ymd2ord y 1 1 = daysBeforeYear y + 1 := by
  simp [ymd2ord, daysBeforeMonth]

/-- The day count of a year, seen through `daysBeforeYear`. -/
theorem daysBeforeYear_succ (y : Int) :
    365 ≤ daysBeforeYear (y + 1) - daysBeforeYear y ∧
    daysBeforeYear (y + 1) - daysBeforeYear y ≤ 366 := by
  unfold daysBeforeYear
  omega

set_option maxHeartbeats 1000000 in
theorem daysBeforeMonth_nonneg (y m : Int) : 0 ≤ daysBeforeMonth y m := by
  unfold daysBeforeMonth
  split_ifs <;> omega

set_option maxHeartbeats 2000000 in
/-- Within a valid date, the offset into the year is at most the year
length. -/
theorem daysBeforeMonth_add_day_le (y m d : Int)
    (hm1 : 1 ≤ m) (hm2 : m ≤ 12) (hd : d ≤ daysInMonth y m) :
    daysBeforeMonth y m + d ≤ 365 + (daysBeforeYear (y + 1) - daysBeforeYear y - 365) := by
  have hleap : daysBeforeYear (y + 1) - daysBeforeYear y
      = 365 + (if isLeapYear y = true then 1 else 0) := by
    unfold daysBeforeYear isLeapYear
    simp only [Bool.and_eq_true, beq_iff_eq, bne_iff_ne, Bool.or_eq_true, ne_eq]
    split_ifs with hL
    · rcases hL with ⟨h4, h100 | h400⟩ <;> omega
    · by_cases h4 : y % 4 = 0
      · have h2 : ¬(¬ y % 100 = 0 ∨ y % 400 = 0) := fun hc => hL ⟨h4, hc⟩
        push_neg at h2
        omega
      · omega
  rw [hleap]
  interval_cases m <;> by_cases hL : isLeapYear y = true <;>
    simp [daysInMonth, daysBeforeMonth, hL] at hd ⊢ <;> omega

set_option maxHeartbeats 1000000 in
/-- C7: for every valid date the Week Calculator computes the ISO-8601
calendar week (always in 1–53), clamps it with `min(week, 52)`, and thus
returns an integer in [1, 52]; it never fails. -/
theorem iso_week_number_range (y m d : Int) (hv : ValidDate y m d) :
    1 ≤ isocalendarWeek y m d ∧ isocalendarWeek y m d ≤ 53 ∧
    iso_week_number y m d = min (isocalendarWeek y m d) 52 ∧
    1 ≤ iso_week_number y m d ∧ iso_week_number y m d ≤ 52 := by
  obtain ⟨hy1, hy2, hm1, hm2, hd1, hd2⟩ := hv
  have hf1 : ymd2ord y 1 1 ≤ ymd2ord y m d := by
    rw [ymd2ord_jan1]
    unfold ymd2ord
    have := daysBeforeMonth_nonneg y m
    omega
  have hf2 : ymd2ord y m d ≤ ymd2ord (y + 1) 1 1 - 1 := by
    rw [ymd2ord_jan1]
    unfold ymd2ord
    have := daysBeforeMonth_add_day_le y m d hm1 hm2 hd2
    omega
  have hb0 := isoweek1monday_bounds y
  have hbm := isoweek1monday_bounds (y - 1)
  have hbp := isoweek1monday_bounds (y + 1)
  have hm0 := isoweek1monday_mod y
  have hmm := isoweek1monday_mod (y - 1)
  have hmp := isoweek1monday_mod (y + 1)
  have hdm : 365 ≤ ymd2ord y 1 1 - ymd2ord (y - 1) 1 1 ∧
      ymd2ord y 1 1 - ymd2ord (y - 1) 1 1 ≤ 366 := by
    have h := daysBeforeYear_succ (y - 1)
    have e : y - 1 + 1 = y := by ring
    rw [e] at h
    rw [ymd2ord_jan1, ymd2ord_jan1]
    omega
  have hdp : 365 ≤ ymd2ord (y + 1) 1 1 - ymd2ord y 1 1 ∧
      ymd2ord (y + 1) 1 1 - ymd2ord y 1 1 ≤ 366 := by
    have h := daysBeforeYear_succ y
    rw [ymd2ord_jan1, ymd2ord_jan1]
    omega
  have hraw : isocalendarWeek y m d =
      (if (ymd2ord y m d - isoweek1monday y) / 7 < 0 then
        (ymd2ord y m d - isoweek1monday (y - 1)) / 7 + 1
      else if 52 ≤ (ymd2ord y m d - isoweek1monday y) / 7 then
        (if isoweek1monday (y + 1) ≤ ymd2ord y m d then 1
         else (ymd2ord y m d - isoweek1monday y) / 7 + 1)
      else (ymd2ord y m d - isoweek1monday y) / 7 + 1) := rfl
  have hmin : iso_week_number y m d = min (isocalendarWeek y m d) 52 := rfl
  have hX : 1 ≤ isocalendarWeek y m d ∧ isocalendarWeek y m d ≤ 53 := by
    rw [hraw]
    split_ifs <;> omega
  have hN : 1 ≤ iso_week_number y m d ∧ iso_week_number y m d ≤ 52 := by
    rw [hmin, min_def]
    split_ifs <;> omega
  exact ⟨hX.1, hX.2, hmin, hN.1, hN.2⟩

/-- Witness for C7 at 2026-10-12. -/
theorem iso_week_number_range_witness :
    1 ≤ isocalendarWeek 2026 10 12 ∧ isocalendarWeek 2026 10 12 ≤ 53 ∧
    iso_week_number 2026 10 12 = min (isocalendarWeek 2026 10 12) 52 ∧
    1 ≤ iso_week_number 2026 10 12 ∧ iso_week_number 2026 10 12 ≤ 52 :=
  iso_week_number_range 2026 10 12 (by decide)

/-- Counterexample to C8: a mocked 304 response is not a 2xx status, yet
`raise_for_status` raises only for 4xx/5xx, so the run exits zero and the
JSON file IS written. -/
theorem non2xx_no_abort_cex :
    ¬(200 ≤ (304 : Int) ∧ (304 : Int) < 300) ∧
    ¬(400 ≤ (304 : Int) ∧ (304 : Int) < 600) ∧
    (runMain 2026 1 1 { status := 304, doc := .elem "[document]" [] [] }).exitOk = true ∧
    (runMain 2026 1 1 { status := 304, doc := .elem "[document]" [] [] }).written.isSome
      = true := by
  refine ⟨by decide, by decide, by decide, by decide⟩

/-- C8 (amended): when the GET yields a client- or server-error status —
the 4xx/5xx statuses `raise_for_status` raises for — the run terminates
with a non-zero status after the error line, and the output JSON file is
not created or modified; the write happens only on the success path. -/
theorem error_status_aborts (y m d : Int) (r : HttpResponse)
    (h : 400 ≤ r.status ∧ r.status < 600) :
    (runMain y m d r).exitOk = false ∧ (runMain y m d r).written = none := by
  unfold runMain scrape_week raise_for_status
  rw [if_pos h]
  exact ⟨rfl, rfl⟩

/-- Witness for the amended C8 at a mocked 404 response. -/
theorem error_status_aborts_witness :
    (runMain 2026 1 1 { status := 404, doc := .elem "[document]" [] [] }).exitOk = false ∧
    (runMain 2026 1 1 { status := 404, doc := .elem "[document]" [] [] }).written = none :=
  error_status_aborts 2026 1 1 { status := 404, doc := .elem "[document]" [] [] } (by decide)

/-- C9: each heading field of the written payload is the
whitespace-normalised concatenated text of the first element matching its
fixed selector (`p.title-number` and `h1`), or `""` when no element
matches; the two fields are extracted independently; and when both
selectors miss, both fields are `""` and the run still succeeds and writes
the payload. -/
theorem headings_spec (y m d : Int) (r : HttpResponse)
    (hok : ¬(400 ≤ r.status ∧ r.status < 600)) :
    (∃ p : Payload, (runMain y m d r).written = some p ∧
      (runMain y m d r).exitOk = true ∧
      p.small_heading = get_text_or_empty (selectPTitleNumber r.doc) ∧
      p.big_heading = get_text_or_empty (selectH1 r.doc)) ∧
    (selectPTitleNumber r.doc = none → selectH1 r.doc = none →
      ∃ p : Payload, (runMain y m d r).written = some p ∧
        p.small_heading = "" ∧ p.big_heading = "") := by
  unfold runMain scrape_week raise_for_status
  rw [if_neg hok]
  constructor
  · exact ⟨_, rfl, rfl, rfl, rfl⟩
  · intro h1 h2
    refine ⟨_, rfl, ?_, ?_⟩
    · show get_text_or_empty (selectPTitleNumber r.doc) = ""
      rw [h1]
      rfl
    · show get_text_or_empty (selectH1 r.doc) = ""
      rw [h2]
      rfl

/-- Witness for C9 on a 200 response whose document has neither a
`p.title-number` nor an `h1`. -/
theorem headings_spec_witness :
    ∃ p : Payload,
      (runMain 2026 1 1 (HttpResponse.mk 200
        (.elem "[document]" [] [.elem "div" [] [.text "x"]]))).written = some p ∧
      p.small_heading = "" ∧ p.big_heading = "" :=
  (headings_spec 2026 1 1
    (HttpResponse.mk 200 (.elem "[document]" [] [.elem "div" [] [.text "x"]]))
    (by decide)).2 rfl rfl
